import Mathlib

/-!
Verification of the actor-lifecycle core (`src/actor.rs`).

The first section is a shallow embedding of the code that is present in the
source excerpt: the `ActorState` enumeration, the adapter cells wrapping a
future or a stream, and the provided (default) trait methods
`AsyncContext::add_future` / `AsyncContext::add_stream`, which are written in
the source directly in terms of the abstract operations `state()` and
`spawn()`.  We realize those two abstract operations on a minimal context
record: `state` is a field projection (the source takes `&self`) and `spawn`
appends the work unit to the spawned collection.  The Rust methods return `()`
and log through a global logger; the embedding therefore returns the updated
context together with the list of diagnostic messages emitted by the call, so
that the logging side channel is visible without pretending it is a field of
the context.

The second section models the parts of the repository that the excerpt only
declares — the polling driver of `context.rs`, the mailbox and the dispatch
loop — from the specification's lifecycle table, and proves the temporal
claims against that model.
-/

/-- Actor execution state (source: `enum ActorState`). -/
inductive ActorState where
  /-- Actor is started. -/
  | Started
  /-- Actor is running. -/
  | Running
  /-- Actor is stopping. -/
  | Stopping
  /-- Actor is stopped. -/
  | Stopped
deriving DecidableEq, Repr

/-- A work unit spawned into a context: either a future wrapped in the
future-adapter cell or a stream wrapped in the stream-adapter cell
(source: `ActorFutureCell` / `ActorStreamCell` from `context`). -/
inductive WorkCell (F S : Type) where
  | futureCell (fut : F)
  | streamCell (stream : S)
deriving DecidableEq, Repr

/-- `ActorFutureCell::new(fut)` — wrap a future in the future-adapter cell. -/
def ActorFutureCell.new {F S : Type} (fut : F) : WorkCell F S :=
  WorkCell.futureCell fut

/-- `ActorStreamCell::new(fut)` — wrap a stream in the stream-adapter cell. -/
def ActorStreamCell.new {F S : Type} (stream : S) : WorkCell F S :=
  WorkCell.streamCell stream

/-- A minimal realization of the context seen by the provided methods of
`AsyncContext`: the current execution state and the collection of spawned
work units. -/
structure Ctx (F S : Type) where
  state : ActorState
  spawned : List (WorkCell F S)
deriving DecidableEq, Repr

/-- `AsyncContext::spawn` — register a work unit for polling by the context. -/
def Ctx.spawn {F S : Type} (ctx : Ctx F S) (w : WorkCell F S) : Ctx F S :=
  { ctx with spawned := ctx.spawned ++ [w] }

/-- `AsyncContext::add_future` (source `actor.rs:210-218`): if the state is
`Stopped`, only a diagnostic is emitted; otherwise the future is wrapped in
`ActorFutureCell` and spawned.  The second component of the result is the
list of diagnostics emitted through the global logger by this call. -/
def Ctx.add_future {F S : Type} (ctx : Ctx F S) (fut : F) :
    Ctx F S × List String :=
  if ctx.state = ActorState.Stopped then
    (ctx, ["Context::add_future called for stopped actor."])
  else
    (ctx.spawn (ActorFutureCell.new fut), [])

/-- `AsyncContext::add_stream` (source `actor.rs:221-230`): same guard as
`add_future`, wrapping the stream in `ActorStreamCell`. -/
def Ctx.add_stream {F S : Type} (ctx : Ctx F S) (s : S) :
    Ctx F S × List String :=
  if ctx.state = ActorState.Stopped then
    (ctx, ["Context::add_stream called for stopped actor."])
  else
    (ctx.spawn (ActorStreamCell.new s), [])

/-!  Default (provided) hook bodies.  In the source every one of these takes
`&mut self, &mut ctx` and has an empty body, so the embedding is a function
on the pair (actor value, context value). -/

/-- Default body of `Actor::started` (source `actor.rs:63`): empty. -/
def Actor.started {A C : Type} (a : A) (ctx : C) : A × C := (a, ctx)

/-- Default body of `Actor::stopping` (source `actor.rs:70`): empty. -/
def Actor.stopping {A C : Type} (a : A) (ctx : C) : A × C := (a, ctx)

/-- Default body of `Actor::stopped` (source `actor.rs:74`): empty. -/
def Actor.stopped {A C : Type} (a : A) (ctx : C) : A × C := (a, ctx)

/-- Default body of `Supervised::restarting` (source `actor.rs:89`): empty. -/
def Supervised.restarting {A C : Type} (a : A) (ctx : C) : A × C := (a, ctx)

/-- Default body of `Handler::error` (source `actor.rs:107`): empty. -/
def Handler.error {A E C : Type} (a : A) (err : E) (ctx : C) : A × C := (a, ctx)

/-- Default body of `StreamHandler::started` (source `actor.rs:129`): empty. -/
def StreamHandler.started {A C : Type} (a : A) (ctx : C) : A × C := (a, ctx)

/-- Default body of `StreamHandler::finished` (source `actor.rs:132`): empty. -/
def StreamHandler.finished {A C : Type} (a : A) (ctx : C) : A × C := (a, ctx)

/-- C1: for every context whose state is `Stopped`, `add_future` and
`add_stream` register no new work unit (the spawned collection, hence the
count of spawned units, is unchanged), and the only effect is one diagnostic
message; the functions are total and their result carries no error value for
the caller. -/
theorem add_future_add_stream_stopped_rejected {F S : Type}
    (ctx : Ctx F S) (fut : F) (s : S)
    (h : ctx.state = ActorState.Stopped) :
    (ctx.add_future fut).1.spawned = ctx.spawned ∧
    (ctx.add_future fut).2 = ["Context::add_future called for stopped actor."] ∧
    (ctx.add_stream s).1.spawned = ctx.spawned ∧
    (ctx.add_stream s).2 = ["Context::add_stream called for stopped actor."] := by
  simp [Ctx.add_future, Ctx.add_stream, h]

/-- Witness for C1 at a concrete stopped context. -/
theorem add_future_add_stream_stopped_rejected_witness :
    (({ state := ActorState.Stopped, spawned := [] } : Ctx Nat Nat).add_future 7).1.spawned = [] ∧
    (({ state := ActorState.Stopped, spawned := [] } : Ctx Nat Nat).add_future 7).2 =
      ["Context::add_future called for stopped actor."] ∧
    (({ state := ActorState.Stopped, spawned := [] } : Ctx Nat Nat).add_stream 9).1.spawned = [] ∧
    (({ state := ActorState.Stopped, spawned := [] } : Ctx Nat Nat).add_stream 9).2 =
      ["Context::add_stream called for stopped actor."] :=
  add_future_add_stream_stopped_rejected
    ({ state := ActorState.Stopped, spawned := [] } : Ctx Nat Nat) 7 9 rfl

/-- C3: for every context whose state is not `Stopped`, `add_future` wraps
the future in the future-adapter cell and spawns it, and `add_stream` wraps
the stream in the stream-adapter cell and spawns it; no diagnostic is
emitted. -/
theorem add_future_add_stream_not_stopped_spawns {F S : Type}
    (ctx : Ctx F S) (fut : F) (s : S)
    (h : ctx.state ≠ ActorState.Stopped) :
    ctx.add_future fut = (ctx.spawn (ActorFutureCell.new fut), []) ∧
    ctx.add_stream s = (ctx.spawn (ActorStreamCell.new s), []) := by
  simp [Ctx.add_future, Ctx.add_stream, h]

/-- Witness for C3 at a concrete running context. -/
theorem add_future_add_stream_not_stopped_spawns_witness :
    (({ state := ActorState.Running, spawned := [] } : Ctx Nat Nat).add_future 7 =
      (({ state := ActorState.Running, spawned := [] } : Ctx Nat Nat).spawn
        (ActorFutureCell.new 7), [])) ∧
    (({ state := ActorState.Running, spawned := [] } : Ctx Nat Nat).add_stream 9 =
      (({ state := ActorState.Running, spawned := [] } : Ctx Nat Nat).spawn
        (ActorStreamCell.new 9), [])) :=
  add_future_add_stream_not_stopped_spawns
    ({ state := ActorState.Running, spawned := [] } : Ctx Nat Nat) 7 9 (by decide)

/-- C7: every default hook body — `Actor::started`, `Actor::stopping`,
`Actor::stopped`, `Supervised::restarting`, `Handler::error`,
`StreamHandler::started`, `StreamHandler::finished` — is a no-op: the actor
and the context are returned unchanged and nothing else is produced. -/
theorem default_hooks_noop {A E C : Type} (a : A) (err : E) (ctx : C) :
    Actor.started a ctx = (a, ctx) ∧
    Actor.stopping a ctx = (a, ctx) ∧
    Actor.stopped a ctx = (a, ctx) ∧
    Supervised.restarting a ctx = (a, ctx) ∧
    Handler.error a err ctx = (a, ctx) ∧
    StreamHandler.started a ctx = (a, ctx) ∧
    StreamHandler.finished a ctx = (a, ctx) :=
  ⟨rfl, rfl, rfl, rfl, rfl, rfl, rfl⟩

/-- C10: `BaseContext::state` takes the context by shared reference — in the
embedding it is a pure projection — and the rejected `Stopped` branch of
`add_future`/`add_stream` returns the context itself: no work unit is added
and no field is modified. -/
theorem stopped_rejection_frame {F S : Type} (ctx : Ctx F S) (fut : F) (s : S)
    (h : ctx.state = ActorState.Stopped) :
    (ctx.add_future fut).1 = ctx ∧ (ctx.add_stream s).1 = ctx := by
  simp [Ctx.add_future, Ctx.add_stream, h]

/-- Witness for C10 at a concrete stopped context. -/
theorem stopped_rejection_frame_witness :
    (({ state := ActorState.Stopped, spawned := [WorkCell.futureCell 1] } :
        Ctx Nat Nat).add_future 7).1 =
      ({ state := ActorState.Stopped, spawned := [WorkCell.futureCell 1] } : Ctx Nat Nat) ∧
    (({ state := ActorState.Stopped, spawned := [WorkCell.futureCell 1] } :
        Ctx Nat Nat).add_stream 9).1 =
      ({ state := ActorState.Stopped, spawned := [WorkCell.futureCell 1] } : Ctx Nat Nat) :=
  stopped_rejection_frame
    ({ state := ActorState.Stopped, spawned := [WorkCell.futureCell 1] } : Ctx Nat Nat) 7 9 rfl

/-!  ## Lifecycle driver model

The polling driver lives in `context.rs`, which the excerpt only imports; the
definitions below are therefore modelled from the specification's lifecycle
table (§4.1) and §8.  -/

/-- Modelled from the spec: the liveness signals a Context embeds — the count
of outstanding address handles, the count of registered work units, and
whether the actor explicitly requested stop via its Context (`context.rs` is
missing from the excerpt). -/
structure LifecycleCtx where
  addrCount : Nat
  workCount : Nat
  stopRequested : Bool
deriving DecidableEq, Repr

/-- Modelled from the spec: a value yielded to the actor by one of its work
units during `Running` — a message for `handle`, a failure for `error`, or a
stream boundary for `StreamHandler::started`/`finished`. -/
inductive Item where
  | msg (m : Nat)
  | failure (e : Nat)
  | streamFirstPoll
  | streamExhausted
deriving DecidableEq, Repr

/-- An observable invocation: each lifecycle hook or handler call, recording
the `ActorState` observed by the callee at the moment of the call. -/
inductive Event where
  | startedHook (s : ActorState)
  | stoppingHook (s : ActorState)
  | stoppedHook (s : ActorState)
  | handleCall (s : ActorState) (m : Nat)
  | errorCall (s : ActorState) (e : Nat)
  | streamStartedHook (s : ActorState)
  | streamFinishedHook (s : ActorState)
deriving DecidableEq, Repr

/-- The actor's overridable lifecycle hooks, as transformers of the liveness
signals: a hook may request stop, acquire an address or spawn work by
changing the respective field. -/
structure Hooks where
  onStarted : LifecycleCtx → LifecycleCtx
  onStopping : LifecycleCtx → LifecycleCtx
  onStopped : LifecycleCtx → LifecycleCtx

/-- A configuration of the driver: the lifecycle phase (`none` before the
first poll), the liveness signals, the queue of values the spawned work units
will yield, and the trace of invocations so far. -/
structure Config where
  phase : Option ActorState
  lctx : LifecycleCtx
  pending : List Item
  trace : List Event
deriving DecidableEq, Repr

/-- Modelled from the spec: `Running → Stopping` triggers — (a) explicit stop
request, (b) no outstanding address handles, (c) no registered work units;
the lifecycle table lists each as sufficient on its own. -/
def stopTrigger (l : LifecycleCtx) : Bool :=
  l.stopRequested || l.addrCount == 0 || l.workCount == 0

/-- Modelled from the spec: the `stopping` hook restores the actor exactly
when it registered a new address handle or spawned a new work unit before
returning. -/
def restores (old new : LifecycleCtx) : Bool :=
  old.addrCount < new.addrCount || old.workCount < new.workCount

/-- The invocation produced by dispatching one yielded value while `Running`. -/
def dispatchEvent : Item → Event
  | Item.msg m => Event.handleCall ActorState.Running m
  | Item.failure e => Event.errorCall ActorState.Running e
  | Item.streamFirstPoll => Event.streamStartedHook ActorState.Running
  | Item.streamExhausted => Event.streamFinishedHook ActorState.Running

/-- Modelled from the spec: one poll of the Context by the external driver.
First poll: enter `Started`, invoke `started` (which observes `Started`),
then move to `Running` immediately after it returns.  In `Running`: if any
stop trigger holds, invoke `stopping` (observing `Stopping`); if the hook
restored liveness the next state is `Running`, otherwise the state becomes
`Stopped` and `stopped` is invoked on entry.  Otherwise dispatch the next
yielded value.  `Stopped` is terminal: the poll does nothing. -/
def pollStep (h : Hooks) (c : Config) : Config :=
  match c.phase with
  | none =>
      { c with phase := some ActorState.Running,
               lctx := h.onStarted c.lctx,
               trace := c.trace ++ [Event.startedHook ActorState.Started] }
  | some ActorState.Running =>
      if stopTrigger c.lctx then
        let l1 := h.onStopping c.lctx
        if restores c.lctx l1 then
          { c with lctx := l1,
                   trace := c.trace ++ [Event.stoppingHook ActorState.Stopping] }
        else
          { c with phase := some ActorState.Stopped,
                   lctx := h.onStopped l1,
                   trace := c.trace ++ [Event.stoppingHook ActorState.Stopping,
                                        Event.stoppedHook ActorState.Stopped] }
      else
        match c.pending with
        | [] => c
        | i :: rest =>
            { c with pending := rest, trace := c.trace ++ [dispatchEvent i] }
  | some _ => c

/-- Iterate the driver for `n` polls. -/
def runPoll (h : Hooks) (c : Config) : Nat → Config
  | 0 => c
  | n + 1 => runPoll h (pollStep h c) n

/-- The configuration before the first poll: no phase, empty trace. -/
def initConfig (l : LifecycleCtx) (items : List Item) : Config :=
  { phase := none, lctx := l, pending := items, trace := [] }

/-- Hooks that override nothing: every hook keeps the default empty body. -/
def idHooks : Hooks :=
  { onStarted := fun l => l, onStopping := fun l => l, onStopped := fun l => l }

lemma pollStep_stopped (h : Hooks) (c : Config)
    (hc : c.phase = some ActorState.Stopped) : pollStep h c = c := by
  simp [pollStep, hc]

lemma runPoll_stopped (h : Hooks) (c : Config)
    (hc : c.phase = some ActorState.Stopped) (n : Nat) : runPoll h c n = c := by
  induction n with
  | zero => rfl
  | succ n ih => simpa [runPoll, pollStep_stopped h c hc] using ih

/-- C2: `Stopped` is terminal — once a configuration is in phase `Stopped`,
any number of further polls leaves it unchanged: no lifecycle hook
(`started`, `stopping`, `stopped`) and no handler invocation (`handle`,
`error`, `StreamHandler::started`, `StreamHandler::finished`) is ever added
to the trace. -/
theorem stopped_terminal (h : Hooks) (c : Config)
    (hc : c.phase = some ActorState.Stopped) (n : Nat) :
    runPoll h c n = c ∧ (runPoll h c n).trace = c.trace :=
  ⟨runPoll_stopped h c hc n, by rw [runPoll_stopped h c hc n]⟩

/-- Witness for C2 at a concrete stopped configuration, three further polls. -/
theorem stopped_terminal_witness :
    runPoll idHooks
      { phase := some ActorState.Stopped,
        lctx := { addrCount := 0, workCount := 0, stopRequested := false },
        pending := [Item.msg 5], trace := [] } 3 =
      { phase := some ActorState.Stopped,
        lctx := { addrCount := 0, workCount := 0, stopRequested := false },
        pending := [Item.msg 5], trace := [] } ∧
    (runPoll idHooks
      { phase := some ActorState.Stopped,
        lctx := { addrCount := 0, workCount := 0, stopRequested := false },
        pending := [Item.msg 5], trace := [] } 3).trace = [] :=
  stopped_terminal idHooks
    { phase := some ActorState.Stopped,
      lctx := { addrCount := 0, workCount := 0, stopRequested := false },
      pending := [Item.msg 5], trace := [] } rfl 3

/-- A demonstration context for the lifecycle machine: one address handle,
one work unit, an explicit stop request. -/
def stoppingDemo : Config :=
  { phase := some ActorState.Running,
    lctx := { addrCount := 1, workCount := 1, stopRequested := true },
    pending := [], trace := [] }

/-- C4: for a running actor on which a stop trigger holds, the poll resolves
the `Stopping` phase through the `stopping` hook: the next observed phase is
`Running` exactly when the hook registered a new address handle or spawned a
new work unit (sole restoration path); if the hook does nothing, the next
observed phase is `Stopped`, the trace gains `stopping` followed by exactly
one `stopped` invocation, and every later poll adds no further `stopped`
invocation. -/
theorem stopping_hook_decides (h : Hooks) (c : Config)
    (hph : c.phase = some ActorState.Running)
    (htr : stopTrigger c.lctx = true) :
    ((pollStep h c).phase = some ActorState.Running ↔
      restores c.lctx (h.onStopping c.lctx) = true) ∧
    (h.onStopping c.lctx = c.lctx →
      (pollStep h c).phase = some ActorState.Stopped ∧
      (pollStep h c).trace = c.trace ++ [Event.stoppingHook ActorState.Stopping,
                                         Event.stoppedHook ActorState.Stopped] ∧
      ∀ n, (runPoll h (pollStep h c) n).trace.count
              (Event.stoppedHook ActorState.Stopped)
            = c.trace.count (Event.stoppedHook ActorState.Stopped) + 1) := by
  constructor
  · cases hres : restores c.lctx (h.onStopping c.lctx) with
    | false => simp [pollStep, hph, htr, hres]
    | true => simp [pollStep, hph, htr, hres]
  · intro hid
    have hres : restores c.lctx (h.onStopping c.lctx) = false := by
      simp [restores, hid]
    have hstep : pollStep h c =
        { c with phase := some ActorState.Stopped,
                 lctx := h.onStopped (h.onStopping c.lctx),
                 trace := c.trace ++ [Event.stoppingHook ActorState.Stopping,
                                      Event.stoppedHook ActorState.Stopped] } := by
      simp [pollStep, hph, htr, hres]
    refine ⟨by rw [hstep], by rw [hstep], ?_⟩
    intro n
    rw [runPoll_stopped h _ (by rw [hstep]) n, hstep]
    simp [List.count_append]

/-- Witness for C4: default (no-op) hooks on a running context with a stop
request — the poll ends in `Stopped` with `stopping` then exactly one
`stopped` on the trace. -/
theorem stopping_hook_decides_witness :
    (((pollStep idHooks stoppingDemo).phase = some ActorState.Running ↔
       restores stoppingDemo.lctx (idHooks.onStopping stoppingDemo.lctx) = true) ∧
     (idHooks.onStopping stoppingDemo.lctx = stoppingDemo.lctx →
       (pollStep idHooks stoppingDemo).phase = some ActorState.Stopped ∧
       (pollStep idHooks stoppingDemo).trace =
         stoppingDemo.trace ++ [Event.stoppingHook ActorState.Stopping,
                                Event.stoppedHook ActorState.Stopped] ∧
       ∀ n, (runPoll idHooks (pollStep idHooks stoppingDemo) n).trace.count
               (Event.stoppedHook ActorState.Stopped)
             = stoppingDemo.trace.count (Event.stoppedHook ActorState.Stopped) + 1)) :=
  stopping_hook_decides idHooks stoppingDemo rfl rfl

/-- C6: for a running actor, each of the three triggers on its own — (a) an
explicit stop request, (b) no outstanding address handle, (c) no registered
work unit — makes the poll enter `Stopping` and invoke the `stopping` hook
(observing `Stopping`) before anything else; no pending value is dispatched
on that poll. -/
theorem running_stop_triggers (h : Hooks) (c : Config)
    (hph : c.phase = some ActorState.Running)
    (htr : c.lctx.stopRequested = true ∨ c.lctx.addrCount = 0 ∨
           c.lctx.workCount = 0) :
    (∃ rest, (pollStep h c).trace =
      c.trace ++ Event.stoppingHook ActorState.Stopping :: rest) ∧
    (pollStep h c).pending = c.pending := by
  have htr' : stopTrigger c.lctx = true := by
    rcases htr with h1 | h1 | h1 <;> simp [stopTrigger, h1]
  by_cases hres : restores c.lctx (h.onStopping c.lctx)
  · exact ⟨⟨[], by simp [pollStep, hph, htr', hres]⟩,
      by simp [pollStep, hph, htr', hres]⟩
  · exact ⟨⟨[Event.stoppedHook ActorState.Stopped],
      by simp [pollStep, hph, htr', hres]⟩,
      by simp [pollStep, hph, htr', hres]⟩

/-- A running context whose only stop trigger is the empty work-unit
collection: an address handle is still outstanding and no stop was
requested. -/
def noWorkDemo : Config :=
  { phase := some ActorState.Running,
    lctx := { addrCount := 1, workCount := 0, stopRequested := false },
    pending := [Item.msg 3], trace := [] }

/-- Witness for C6: trigger (c) alone — no registered work units, while an
address is still live and no stop was requested — suffices. -/
theorem running_stop_triggers_witness :
    ((∃ rest, (pollStep idHooks noWorkDemo).trace =
       noWorkDemo.trace ++ Event.stoppingHook ActorState.Stopping :: rest) ∧
     (pollStep idHooks noWorkDemo).pending = noWorkDemo.pending) :=
  running_stop_triggers idHooks noWorkDemo rfl (Or.inr (Or.inr rfl))

lemma pollStep_trace_shape (h : Hooks) (c : Config) :
    ∃ es, (pollStep h c).trace = c.trace ++ es ∧
      (c.phase = none → es = [Event.startedHook ActorState.Started]) ∧
      (c.phase ≠ none → ∀ s, Event.startedHook s ∉ es) := by
  cases hph : c.phase with
  | none =>
      exact ⟨[Event.startedHook ActorState.Started], by simp [pollStep, hph],
        fun _ => rfl, fun hne => (hne rfl).elim⟩
  | some s =>
      cases s with
      | Running =>
          by_cases htr : stopTrigger c.lctx
          · by_cases hres : restores c.lctx (h.onStopping c.lctx)
            · exact ⟨[Event.stoppingHook ActorState.Stopping],
                by simp [pollStep, hph, htr, hres], by simp [hph],
                fun _ s2 => by simp⟩
            · exact ⟨[Event.stoppingHook ActorState.Stopping,
                      Event.stoppedHook ActorState.Stopped],
                by simp [pollStep, hph, htr, hres], by simp [hph],
                fun _ s2 => by simp⟩
          · cases hp : c.pending with
            | nil => exact ⟨[], by simp [pollStep, hph, htr, hp], by simp [hph],
                fun _ s2 => by simp⟩
            | cons i rest =>
                refine ⟨[dispatchEvent i], by simp [pollStep, hph, htr, hp],
                  by simp [hph], fun _ s2 => ?_⟩
                cases i <;> simp [dispatchEvent]
      | Started => exact ⟨[], by simp [pollStep, hph], by simp [hph],
          fun _ s2 => by simp⟩
      | Stopping => exact ⟨[], by simp [pollStep, hph], by simp [hph],
          fun _ s2 => by simp⟩
      | Stopped => exact ⟨[], by simp [pollStep, hph], by simp [hph],
          fun _ s2 => by simp⟩

lemma pollStep_phase_ne_none (h : Hooks) (c : Config) (hph : c.phase ≠ none) :
    (pollStep h c).phase ≠ none := by
  cases hph2 : c.phase with
  | none => exact absurd hph2 hph
  | some s =>
      cases s with
      | Running =>
          by_cases htr : stopTrigger c.lctx
          · by_cases hres : restores c.lctx (h.onStopping c.lctx)
            · simp [pollStep, hph2, htr, hres]
            · simp [pollStep, hph2, htr, hres]
          · cases hp : c.pending with
            | nil => simp [pollStep, hph2, htr, hp]
            | cons i rest => simp [pollStep, hph2, htr, hp]
      | Started => simp [pollStep, hph2]
      | Stopping => simp [pollStep, hph2]
      | Stopped => simp [pollStep, hph2]

/-- Invariant: before the first poll the trace is empty; afterwards the trace
starts with the unique `started` invocation, which observed `Started`, and
no other `started` invocation ever appears. -/
def startedOnce (c : Config) : Prop :=
  (c.phase = none → c.trace = []) ∧
  (c.phase ≠ none → ∃ tl, c.trace = Event.startedHook ActorState.Started :: tl ∧
      ∀ s, Event.startedHook s ∉ tl)

lemma startedOnce_pollStep (h : Hooks) (c : Config) (hc : startedOnce c) :
    startedOnce (pollStep h c) := by
  obtain ⟨hc1, hc2⟩ := hc
  obtain ⟨es, hes, hnone, hsome⟩ := pollStep_trace_shape h c
  cases hph : c.phase with
  | none =>
      have hph' : (pollStep h c).phase = some ActorState.Running := by
        simp [pollStep, hph]
      refine ⟨fun hcontra => ?_, fun _ => ?_⟩
      · rw [hph'] at hcontra; exact absurd hcontra (by simp)
      · refine ⟨[], ?_, by simp⟩
        rw [hes, hc1 hph, hnone hph]
        rfl
  | some s =>
      obtain ⟨tl, htl, hcl⟩ := hc2 (by simp [hph])
      have hph2 := pollStep_phase_ne_none h c (by simp [hph])
      refine ⟨fun hcontra => absurd hcontra hph2, fun _ => ?_⟩
      refine ⟨tl ++ es, ?_, ?_⟩
      · rw [hes, htl]; simp
      · intro s2 hmem
        rcases List.mem_append.mp hmem with hm | hm
        · exact hcl s2 hm
        · exact hsome (by simp [hph]) s2 hm

lemma startedOnce_runPoll (h : Hooks) (c : Config) (hc : startedOnce c)
    (n : Nat) : startedOnce (runPoll h c n) := by
  induction n generalizing c with
  | zero => exact hc
  | succ n ih => exact ih _ (startedOnce_pollStep h c hc)

lemma runPoll_phase_ne_none (h : Hooks) (c : Config) (hph : c.phase ≠ none)
    (n : Nat) : (runPoll h c n).phase ≠ none := by
  induction n generalizing c with
  | zero => exact hph
  | succ n ih => exact ih _ (pollStep_phase_ne_none h c hph)

/-- C5: from the initial configuration, after any positive number of polls
the `started` invocation is the first event on the trace, occurs exactly
once, and every `started` invocation observed state `Started`; moreover the
very first poll ends in phase `Running` having run nothing but `started`
(the transition to `Running` is immediate after `started` returns). -/
theorem started_exactly_once_first (h : Hooks) (l : LifecycleCtx)
    (items : List Item) (n : Nat) (hn : 0 < n) :
    (runPoll h (initConfig l items) n).trace.head? =
      some (Event.startedHook ActorState.Started) ∧
    (runPoll h (initConfig l items) n).trace.count
      (Event.startedHook ActorState.Started) = 1 ∧
    (∀ s, Event.startedHook s ∈ (runPoll h (initConfig l items) n).trace →
      s = ActorState.Started) ∧
    (runPoll h (initConfig l items) 1).phase = some ActorState.Running ∧
    (runPoll h (initConfig l items) 1).trace =
      [Event.startedHook ActorState.Started] := by
  have hinv0 : startedOnce (initConfig l items) :=
    ⟨fun _ => rfl, fun hne => absurd rfl hne⟩
  have hinv := startedOnce_runPoll h (initConfig l items) hinv0 n
  have hne : (runPoll h (initConfig l items) n).phase ≠ none := by
    obtain ⟨m, rfl⟩ : ∃ m, n = m + 1 := ⟨n - 1, by omega⟩
    show (runPoll h (pollStep h (initConfig l items)) m).phase ≠ none
    exact runPoll_phase_ne_none h _ (by simp [pollStep, initConfig]) m
  obtain ⟨tl, htl, hcl⟩ := hinv.2 hne
  refine ⟨by rw [htl]; rfl, ?_, ?_, ?_, ?_⟩
  · rw [htl, List.count_cons_self,
      List.count_eq_zero_of_not_mem (hcl ActorState.Started)]
  · intro s hmem
    rw [htl] at hmem
    rcases List.mem_cons.mp hmem with he | hm
    · injection he
    · exact absurd hm (hcl s)
  · rfl
  · rfl

/-- Witness for C5: default hooks, a live context, a single poll. -/
theorem started_exactly_once_first_witness :
    (runPoll idHooks
      (initConfig { addrCount := 1, workCount := 1, stopRequested := false }
        []) 1).trace.head? = some (Event.startedHook ActorState.Started) ∧
    (runPoll idHooks
      (initConfig { addrCount := 1, workCount := 1, stopRequested := false }
        []) 1).trace.count (Event.startedHook ActorState.Started) = 1 ∧
    (∀ s, Event.startedHook s ∈ (runPoll idHooks
      (initConfig { addrCount := 1, workCount := 1, stopRequested := false }
        []) 1).trace → s = ActorState.Started) ∧
    (runPoll idHooks
      (initConfig { addrCount := 1, workCount := 1, stopRequested := false }
        []) 1).phase = some ActorState.Running ∧
    (runPoll idHooks
      (initConfig { addrCount := 1, workCount := 1, stopRequested := false }
        []) 1).trace = [Event.startedHook ActorState.Started] :=
  started_exactly_once_first idHooks
    { addrCount := 1, workCount := 1, stopRequested := false } [] 1 (by decide)

/-!  ## Dispatch-order model

The mailbox and the per-tick polling of work units live outside the excerpt;
the model below is built from the specification: each work unit is a source
delivering messages in order, and on every tick the driver picks one source
(the pick sequence is the schedule) and dispatches its next message. -/

/-- Modelled from the spec: take the next undelivered message of source `i`,
returning it with the updated source collection (the spec's "each unit of
work that yields a value routes that value into the actor's
message-handling behavior"). -/
def popAt (srcs : List (List Nat)) (i : Nat) :
    Option (Nat × List (List Nat)) :=
  match srcs.getD i [] with
  | [] => none
  | m :: rest => some (m, srcs.set i rest)

/-- Modelled from the spec: run the dispatch loop under a schedule — the
sequence of source indices the driver polls — producing the trace of
`handle` invocations as (source, message) pairs, one per dispatched value. -/
def dispatchRun (srcs : List (List Nat)) : List Nat → List (Nat × Nat)
  | [] => []
  | i :: sched =>
    match popAt srcs i with
    | none => dispatchRun srcs sched
    | some (m, srcs2) => (i, m) :: dispatchRun srcs2 sched

/-- The messages of the dispatch trace that came from source `j`, in
invocation order. -/
def perSource (j : Nat) (tr : List (Nat × Nat)) : List Nat :=
  tr.filterMap (fun p => if p.1 = j then some p.2 else none)

lemma perSource_cons (j a b : Nat) (tr : List (Nat × Nat)) :
    perSource j ((a, b) :: tr) =
      if a = j then b :: perSource j tr else perSource j tr := by
  by_cases hab : a = j <;> simp [perSource, hab]

lemma popAt_some (srcs : List (List Nat)) (i m : Nat)
    (srcs2 : List (List Nat)) (hp : popAt srcs i = some (m, srcs2)) :
    ∃ rest, srcs.getD i [] = m :: rest ∧ srcs2 = srcs.set i rest := by
  unfold popAt at hp
  cases hg : srcs.getD i [] with
  | nil => rw [hg] at hp; exact absurd hp (by simp)
  | cons a rest =>
      rw [hg] at hp
      simp only [Option.some.injEq, Prod.mk.injEq] at hp
      obtain ⟨h1, h2⟩ := hp
      subst h1
      exact ⟨rest, rfl, h2.symm⟩

lemma getD_ne_nil_lt (srcs : List (List Nat)) (i : Nat)
    (hne : srcs.getD i [] ≠ []) : i < srcs.length := by
  by_contra hle
  push_neg at hle
  exact hne (List.getD_eq_default srcs [] hle)

lemma perSource_dispatchRun (srcs : List (List Nat)) (sched : List Nat)
    (j : Nat) :
    ∃ t, perSource j (dispatchRun srcs sched) ++ t = srcs.getD j [] := by
  induction sched generalizing srcs with
  | nil => exact ⟨srcs.getD j [], by simp [dispatchRun, perSource]⟩
  | cons i sched ih =>
      cases hp : popAt srcs i with
      | none => simpa [dispatchRun, hp] using ih srcs
      | some pr =>
          obtain ⟨m, srcs2⟩ := pr
          obtain ⟨rest, hg, hs2⟩ := popAt_some srcs i m srcs2 hp
          have hlt : i < srcs.length :=
            getD_ne_nil_lt srcs i (by rw [hg]; simp)
          have hrun : dispatchRun srcs (i :: sched) =
              (i, m) :: dispatchRun srcs2 sched := by
            simp [dispatchRun, hp]
          by_cases hij : i = j
          · subst hij
            obtain ⟨t, ht⟩ := ih srcs2
            have hgd2 : srcs2.getD i [] = rest := by
              rw [hs2, List.getD_eq_getD_get?,
                  List.get?_set_eq_of_lt rest hlt]
              rfl
            refine ⟨t, ?_⟩
            rw [hrun, perSource_cons, if_pos rfl, hg, List.cons_append, ht,
                hgd2]
          · obtain ⟨t, ht⟩ := ih srcs2
            have hgd2 : srcs2.getD j [] = srcs.getD j [] := by
              rw [hs2, List.getD_eq_getD_get?, List.get?_set_ne rest srcs hij,
                  ← List.getD_eq_getD_get?]
            refine ⟨t, ?_⟩
            rw [hrun, perSource_cons, if_neg hij, ht, hgd2]

/-- C9: under every schedule, the `handle` invocations attributed to one
source occur in exactly the order that source delivered its messages (the
dispatched messages of source `j` form an in-order prefix of `j`'s delivery
list); across distinct work units no order is guaranteed — two schedules of
the same two sources produce different interleavings. -/
theorem single_source_fifo (srcs : List (List Nat)) (sched : List Nat)
    (j : Nat) :
    (∃ t, perSource j (dispatchRun srcs sched) ++ t = srcs.getD j []) ∧
    dispatchRun [[1], [2]] [0, 1] ≠ dispatchRun [[1], [2]] [1, 0] :=
  ⟨perSource_dispatchRun srcs sched j, by decide⟩
